import Mathlib

/-!
# Verification of the stock-allocation kernel

A shallow embedding, in Lean 4, of the domain-modeling / allocation kernel of
the `python-books` repository
(`src/architecture_patterns_with_python/1_domain_modeling/model.py`, together
with the service layer in `src/architecture_patterns_with_python/4_service_layer/services.py`).

Modeling decisions:
* Python `int` quantities become `Int`; dates become `Option Nat` (only their
  total order matters to the code).
* `OrderLine` is a frozen dataclass (value object, equality by value): a Lean
  structure with derived decidable equality.
* `Batch._allocations` is a Python `set` of order lines keyed by value
  equality: a `Finset OrderLine`.
* In-place mutation of a batch becomes explicit state passing: `Batch.allocate`
  and `Batch.deallocate` return the updated batch, and the kernel `allocate`
  returns the updated batch list next to its `Except` outcome.  A raised
  exception leaves the state untouched, so the error branch returns the input
  list unchanged, mirroring that `next(...)` over the generator only evaluates
  the side-effect-free `can_allocate` before `OutOfStock` is raised.
* Python identity of list elements is modeled by tagging each batch with its
  position (`List.enum`) before sorting; `sorted` is Timsort, a stable sort
  driven by `__lt__` (here the reflection of `Batch.__gt__`), which coincides
  with the stable `List.mergeSort` under the negated-`gt` comparator.
-/

namespace PythonBooks

/-- Python class `OrderLine` from `model.py`: a frozen dataclass (immutable value object). -/
structure OrderLine where
  orderid : String
  sku : String
  qty : Int
deriving DecidableEq, Repr

/-- Python class `Batch` from `model.py`: an entity with a reference, sku, optional eta,
fixed purchased quantity, and a set of allocated order lines. -/
structure Batch where
  reference : String
  sku : String
  eta : Option Nat
  purchased_quantity : Int
  allocations : Finset OrderLine

/-- Python `Batch.__init__`: `_allocations` starts out as the empty set. -/
def mkBatch (ref sku : String) (qty : Int) (eta : Option Nat) : Batch :=
  { reference := ref, sku := sku, eta := eta
    purchased_quantity := qty, allocations := ∅ }

/-- Python property `Batch.allocated_quantity`: `sum(line.qty for line in self._allocations)`. -/
def Batch.allocated_quantity (b : Batch) : Int :=
  b.allocations.sum (fun line => line.qty)

/-- Python property `Batch.available_quantity`: `self._purchased_quantity - self.allocated_quantity`. -/
def Batch.available_quantity (b : Batch) : Int :=
  b.purchased_quantity - b.allocated_quantity

/-- Python method `Batch.can_allocate`: `self.sku == line.sku and self.available_quantity >= line.qty`. -/
def Batch.can_allocate (b : Batch) (line : OrderLine) : Bool :=
  b.sku == line.sku && b.available_quantity ≥ line.qty

/-- Python method `Batch.allocate`: `if self.can_allocate(line): self._allocations.add(line)`. -/
def Batch.allocate (b : Batch) (line : OrderLine) : Batch :=
  if b.can_allocate line then
    { b with allocations := insert line b.allocations }
  else
    b

/-- Python method `Batch.deallocate`: `if line in self._allocations: self._allocations.remove(line)`. -/
def Batch.deallocate (b : Batch) (line : OrderLine) : Batch :=
  if line ∈ b.allocations then
    { b with allocations := b.allocations.erase line }
  else
    b

/-- Python method `Batch.__gt__(self, other)`: `None` eta is never greater; a dated batch is
greater than any `None`-eta batch; otherwise compare etas. -/
def Batch.gtB (self other : Batch) : Bool :=
  match self.eta with
  | none => false
  | some x =>
    match other.eta with
    | none => true
    | some y => y < x

/-- The comparator under which Python's stable `sorted(batches)` sorts:
`a` may precede `b` iff not `a.__gt__(b)` (i.e. the negation of the strict
order `b < a` that `sorted` derives by reflecting `__gt__`). -/
def batchLe (a b : Batch) : Bool := !(a.gtB b)

/-- Comparator `batchLe` lifted to position-tagged batches (tags model Python object
identity of the list elements; the tag does not take part in the comparison,
and the stable sort preserves the original order of ties, as Timsort does). -/
def taggedLe (a b : Nat × Batch) : Bool := batchLe a.2 b.2

/-- The `next(b for b in sorted(batches) if b.can_allocate(line))` step of
`allocate`: the first batch, in sorted order, that can allocate the line,
together with its position in the original list. -/
def selectBatch (line : OrderLine) (batches : List Batch) : Option (Nat × Batch) :=
  (batches.enum.mergeSort taggedLe).find? (fun p => p.2.can_allocate line)

/-- Python function `allocate(line, batches)` from `model.py`.  On success it calls
`batch.allocate(line)` on the selected batch (position `i` in the original
list) and returns its reference; on `StopIteration` it raises
`OutOfStock(f'Out of stock for sku {line.sku}')`, leaving every batch as it
was. -/
def allocate (line : OrderLine) (batches : List Batch) :
    Except String String × List Batch :=
  match selectBatch line batches with
  | some (i, b) => (.ok b.reference, batches.set i (b.allocate line))
  | none => (.error ("Out of stock for sku " ++ line.sku), batches)

/-- Python function `is_valid_sku(sku, batches)` from `services.py`:
`sku in {b.sku for b in batches}`. -/
def is_valid_sku (sku : String) (batches : List Batch) : Bool :=
  batches.any (fun b => b.sku == sku)

/-- The two exception classes a caller of the service layer can see:
`model.OutOfStock` (propagated from the kernel) and `services.InvalidSku`,
each carrying its message. -/
inductive ServiceError where
  | outOfStock (msg : String)
  | invalidSku (msg : String)
deriving DecidableEq, Repr

/-- Python function `services.allocate(line, repo, session)` from
`4_service_layer/services.py`: fetch the repository's batches, raise
`InvalidSku(f'Invalid sku {line.sku}')` if the SKU is unknown (before the
kernel runs, so the state is untouched), otherwise delegate to the kernel
(`session.commit()` belongs to the excluded persistence collaborator). -/
def services_allocate (line : OrderLine) (repoBatches : List Batch) :
    Except ServiceError String × List Batch :=
  if is_valid_sku line.sku repoBatches then
    match allocate line repoBatches with
    | (.ok r, bs) => (.ok r, bs)
    | (.error m, bs) => (.error (.outOfStock m), bs)
  else
    (.error (.invalidSku ("Invalid sku " ++ line.sku)), repoBatches)

/-- Modelled from the spec: the `Product` aggregate class is not under `src/`
(only its callers are, e.g.
`8_events_and_the_message_bus/src/allocation/service_layer/services.py`,
which constructs `model.Product(sku, batches=[])` and calls
`product.allocate(line)`).  Per spec §3 it owns `sku`, a collection of
`batches`, and a `version_number` counter. -/
structure Product where
  sku : String
  batches : List Batch
  version_number : Int

/-- Modelled from the spec (§4.4): `Product.allocate(line)` delegates to the
kernel over `self.batches`; on success it increments `version_number` and
returns the reference; on failure the out-of-stock condition propagates and
the product is unchanged. -/
def Product.allocate (p : Product) (line : OrderLine) :
    Except String String × Product :=
  match PythonBooks.allocate line p.batches with
  | (.ok r, bs) =>
      (.ok r, { p with batches := bs, version_number := p.version_number + 1 })
  | (.error m, _) => (.error m, p)

/-- A single domain mutation against a batch, for stating the lifecycle
invariant: `allocations` only ever changes via `allocate` / `deallocate`. -/
inductive BatchOp where
  | alloc (line : OrderLine)
  | dealloc (line : OrderLine)
deriving DecidableEq, Repr

/-- The order line an operation carries. -/
def BatchOp.line : BatchOp → OrderLine
  | .alloc l => l
  | .dealloc l => l

/-- Run one operation against a batch. -/
def applyOp (b : Batch) : BatchOp → Batch
  | .alloc l => b.allocate l
  | .dealloc l => b.deallocate l

/-- Run a sequence of operations against a batch. -/
def applyOps (b : Batch) (ops : List BatchOp) : Batch :=
  ops.foldl applyOp b

/-! ## Helper lemmas about the sort comparator and batch selection -/

/-- Unfolded reading of the sort comparator: a batch may precede another iff
it is in stock (`eta = none`) or both are dated and its eta is no later. -/
theorem batchLe_iff (a b : Batch) : batchLe a b = true ↔
    (a.eta = none ∨ ∃ x y, a.eta = some x ∧ b.eta = some y ∧ x ≤ y) := by
  unfold batchLe Batch.gtB
  rcases a.eta with _ | x <;> rcases b.eta with _ | y <;> simp

theorem batchLe_refl (a : Batch) : batchLe a a = true := by
  rw [batchLe_iff]
  rcases h : a.eta with _ | x
  · exact Or.inl rfl
  · exact Or.inr ⟨x, x, rfl, rfl, le_refl x⟩

theorem taggedLe_refl (a : Nat × Batch) : taggedLe a a = true :=
  batchLe_refl a.2

theorem batchLe_trans (a b c : Batch)
    (h1 : batchLe a b = true) (h2 : batchLe b c = true) : batchLe a c = true := by
  rw [batchLe_iff] at h1 h2 ⊢
  rcases h1 with h1 | ⟨x, y, hax, hby, hxy⟩
  · exact Or.inl h1
  · rcases h2 with h2 | ⟨y', z, hby', hcz, hyz⟩
    · rw [h2] at hby; cases hby
    · rw [hby] at hby'
      cases hby'
      exact Or.inr ⟨x, z, hax, hcz, le_trans hxy hyz⟩

theorem taggedLe_trans (a b c : Nat × Batch)
    (h1 : taggedLe a b = true) (h2 : taggedLe b c = true) : taggedLe a c = true :=
  batchLe_trans a.2 b.2 c.2 h1 h2

theorem batchLe_total (a b : Batch) :
    (batchLe a b || batchLe b a) = true := by
  rcases ha : a.eta with _ | x <;> rcases hb : b.eta with _ | y
  · simp [batchLe_iff, ha, hb]
  · simp [batchLe_iff, ha, hb]
  · simp [batchLe_iff, ha, hb]
  · rcases le_total x y with h | h
    · have : batchLe a b = true := (batchLe_iff a b).mpr (Or.inr ⟨x, y, ha, hb, h⟩)
      simp [this]
    · have : batchLe b a = true := (batchLe_iff b a).mpr (Or.inr ⟨y, x, hb, ha, h⟩)
      simp [this]

theorem taggedLe_total (a b : Nat × Batch) :
    (taggedLe a b || taggedLe b a) = true :=
  batchLe_total a.2 b.2

/-- In a list pairwise-sorted by a reflexive comparator, the first element
satisfying a predicate is `le`-below every element satisfying it. -/
theorem find?_min_of_pairwise {α : Type} {le : α → α → Bool} {p : α → Bool}
    (hrefl : ∀ a, le a a = true) :
    ∀ (l : List α), l.Pairwise (fun x y => le x y = true) →
      ∀ b, l.find? p = some b → ∀ x ∈ l, p x = true → le b x = true
  | [], _, b, hfind => by simp at hfind
  | a :: t, hp, b, hfind => by
    rw [List.pairwise_cons] at hp
    intro x hx hpx
    by_cases hpa : p a = true
    · rw [List.find?_cons_of_pos _ hpa] at hfind
      cases hfind
      rcases List.mem_cons.mp hx with rfl | hxt
      · exact hrefl x
      · exact hp.1 x hxt
    · rw [List.find?_cons_of_neg _ (by simpa using hpa)] at hfind
      rcases List.mem_cons.mp hx with rfl | hxt
      · exact absurd hpx hpa
      · exact find?_min_of_pairwise hrefl t hp.2 b hfind x hxt hpx

theorem sorted_enum_mergeSort (batches : List Batch) :
    (batches.enum.mergeSort taggedLe).Pairwise (fun x y => taggedLe x y = true) := by
  simpa using @List.sorted_mergeSort (Nat × Batch) taggedLe
    (fun a b c h1 h2 => taggedLe_trans a b c (by simpa using h1) (by simpa using h2))
    (fun a b => by simpa using taggedLe_total a b)
    batches.enum

/-- Characterization of a successful selection: the selected batch sits at
position `i` of the original list, can allocate the line, and is
comparator-below every candidate that can allocate the line. -/
theorem selectBatch_eq_some (line : OrderLine) (batches : List Batch)
    (i : Nat) (b : Batch) (h : selectBatch line batches = some (i, b)) :
    batches[i]? = some b ∧ b.can_allocate line = true ∧
      ∀ c ∈ batches, c.can_allocate line = true → batchLe b c = true := by
  unfold selectBatch at h
  have hmem : (i, b) ∈ batches.enum.mergeSort taggedLe := List.mem_of_find?_eq_some h
  have hget : batches[i]? = some b :=
    List.mk_mem_enum_iff_getElem?.mp (List.mem_mergeSort.mp hmem)
  have hcan : b.can_allocate line = true := by simpa using List.find?_some h
  refine ⟨hget, hcan, ?_⟩
  intro c hc hcanc
  obtain ⟨j, hj⟩ := List.mem_iff_getElem?.mp hc
  have hjmem : (j, c) ∈ batches.enum.mergeSort taggedLe :=
    List.mem_mergeSort.mpr (List.mk_mem_enum_iff_getElem?.mpr hj)
  have := find?_min_of_pairwise taggedLe_refl _ (sorted_enum_mergeSort batches)
    _ h (j, c) hjmem (by simpa using hcanc)
  simpa [taggedLe] using this

/-- Selection fails exactly when no batch in the list can allocate the line. -/
theorem selectBatch_eq_none (line : OrderLine) (batches : List Batch) :
    selectBatch line batches = none ↔
      ∀ b ∈ batches, b.can_allocate line = false := by
  unfold selectBatch
  rw [List.find?_eq_none]
  constructor
  · intro h b hb
    obtain ⟨j, hj⟩ := List.mem_iff_getElem?.mp hb
    have := h (j, b) (List.mem_mergeSort.mpr (List.mk_mem_enum_iff_getElem?.mpr hj))
    simpa using this
  · intro h x hx
    obtain ⟨j, c⟩ := x
    have hc : c ∈ batches :=
      List.mem_iff_getElem?.mpr ⟨j, List.mk_mem_enum_iff_getElem?.mp (List.mem_mergeSort.mp hx)⟩
    simpa using h c hc

/-- Shared reading of the eligibility test in terms of the primitive fields. -/
theorem can_allocate_eq (b : Batch) (line : OrderLine) :
    b.can_allocate line = true ↔
      (line.sku = b.sku ∧
        line.qty ≤ b.purchased_quantity - b.allocations.sum (fun l => l.qty)) := by
  unfold Batch.can_allocate Batch.available_quantity Batch.allocated_quantity
  simp only [Bool.and_eq_true, beq_iff_eq, decide_eq_true_eq, ge_iff_le]
  constructor
  · rintro ⟨h1, h2⟩
    exact ⟨h1.symm, h2⟩
  · rintro ⟨h1, h2⟩
    exact ⟨h1.symm, h2⟩

/-! ## Claim theorems -/

/-- C3: `Batch.can_allocate(line)` returns true if and only if
`line.sku == b.sku` and `line.qty <= b.available_quantity`, where
`available_quantity = purchased_quantity - sum of qty over allocations`.
The call is a pure function of the batch and the line (the embedding returns
only a `Bool` and no updated batch), so it has no side effect on the batch. -/
theorem can_allocate_iff (b : Batch) (line : OrderLine) :
    b.can_allocate line = true ↔
      (line.sku = b.sku ∧ line.qty ≤ b.available_quantity ∧
        b.available_quantity =
          b.purchased_quantity - b.allocations.sum (fun l => l.qty)) := by
  rw [can_allocate_eq]
  unfold Batch.available_quantity Batch.allocated_quantity
  tauto

/-- C6: `Batch.allocate` is idempotent: allocating the same line twice yields
the same batch — in particular the same `available_quantity` and the same
`allocations` set — as allocating it once, because `allocations` is a set
keyed by the line's value equality. -/
theorem batch_allocate_idempotent (b : Batch) (line : OrderLine) :
    (b.allocate line).allocate line = b.allocate line ∧
    ((b.allocate line).allocate line).available_quantity =
      (b.allocate line).available_quantity ∧
    ((b.allocate line).allocate line).allocations =
      (b.allocate line).allocations := by
  have h : (b.allocate line).allocate line = b.allocate line := by
    unfold Batch.allocate
    by_cases hc : b.can_allocate line = true
    · simp only [hc, if_true]
      by_cases hc2 :
          Batch.can_allocate { b with allocations := insert line b.allocations } line = true
      · simp [hc2, Finset.insert_idem]
      · simp [hc2]
    · simp [hc]
  exact ⟨h, by rw [h], by rw [h]⟩

/-- C7: `Batch.allocate` and `Batch.deallocate` never raise: allocating a line
that cannot be satisfied, or deallocating a line not currently allocated, is a
silent no-op that leaves the batch (hence its `allocations` set and
`available_quantity`) unchanged.  Totality is inherent: both are total Lean
functions returning the updated batch. -/
theorem batch_silent_noop (b : Batch) (line : OrderLine) :
    (b.can_allocate line = false → b.allocate line = b) ∧
    (line ∉ b.allocations → b.deallocate line = b) := by
  constructor
  · intro h
    unfold Batch.allocate
    simp [h]
  · intro h
    unfold Batch.deallocate
    simp [h]

/-- Witness for C7 at a concrete input: batch of 2 in stock, line asking 20
(cannot be satisfied, and never allocated). -/
theorem batch_silent_noop_witness :
    ((mkBatch "b1" "CHAIR" 2 none).can_allocate ⟨"o1", "CHAIR", 20⟩ = false ∧
      (mkBatch "b1" "CHAIR" 2 none).allocate ⟨"o1", "CHAIR", 20⟩ =
        mkBatch "b1" "CHAIR" 2 none) ∧
    ((⟨"o1", "CHAIR", 20⟩ : OrderLine) ∉ (mkBatch "b1" "CHAIR" 2 none).allocations ∧
      (mkBatch "b1" "CHAIR" 2 none).deallocate ⟨"o1", "CHAIR", 20⟩ =
        mkBatch "b1" "CHAIR" 2 none) :=
  ⟨⟨by decide, (batch_silent_noop (mkBatch "b1" "CHAIR" 2 none) ⟨"o1", "CHAIR", 20⟩).1 (by decide)⟩,
   ⟨by decide, (batch_silent_noop (mkBatch "b1" "CHAIR" 2 none) ⟨"o1", "CHAIR", 20⟩).2 (by decide)⟩⟩

/-- C10: called on an empty batch list, the kernel does not misbehave: it
raises exactly the out-of-stock condition carrying the line's SKU, with the
(empty) state unchanged. -/
theorem allocate_empty_is_out_of_stock (line : OrderLine) :
    allocate line ([] : List Batch) =
      (.error ("Out of stock for sku " ++ line.sku), ([] : List Batch)) := by
  unfold allocate selectBatch
  simp

/-- C1: the kernel selects the most preferred capable batch.  On a successful
selection of batch `b` (at position `i`), `allocate` returns `b`'s reference;
if any in-stock batch (`eta = none`) in the list can allocate the line, the
selected batch is in stock; and if the selected batch is dated, its eta is no
later than that of any capable dated batch in the list. -/
theorem allocate_selects_preferred (line : OrderLine) (batches : List Batch)
    (i : Nat) (b : Batch) (h : selectBatch line batches = some (i, b)) :
    (allocate line batches).1 = .ok b.reference ∧
    ((∃ B ∈ batches, B.eta = none ∧ B.can_allocate line = true) → b.eta = none) ∧
    (∀ d : Nat, b.eta = some d →
      ∀ D ∈ batches, D.can_allocate line = true → ∀ e : Nat, D.eta = some e → d ≤ e) := by
  obtain ⟨hget, hcan, hmin⟩ := selectBatch_eq_some line batches i b h
  refine ⟨?_, ?_, ?_⟩
  · unfold allocate
    rw [h]
  · rintro ⟨B, hB, hBeta, hBcan⟩
    have hle := hmin B hB hBcan
    rw [batchLe_iff] at hle
    rcases hle with h1 | ⟨x, y, hbx, hBy, hxy⟩
    · exact h1
    · rw [hBeta] at hBy
      cases hBy
  · intro d hbd D hD hDcan e hDe
    have hle := hmin D hD hDcan
    rw [batchLe_iff] at hle
    rcases hle with h1 | ⟨x, y, hbx, hDy, hxy⟩
    · rw [h1] at hbd
      cases hbd
    · rw [hbd] at hbx
      cases hbx
      rw [hDe] at hDy
      cases hDy
      exact hxy

/-- Concrete order line used by the witnesses below. -/
def wLine : OrderLine := ⟨"o1", "CLOCK", 10⟩

/-- Concrete dated batch used by the witnesses below. -/
def wShip : Batch := mkBatch "ship" "CLOCK" 100 (some 1)

/-- Concrete in-stock batch used by the witnesses below. -/
def wStock : Batch := mkBatch "stock" "CLOCK" 100 none

/-- Concrete batch list used by the witnesses below: a dated batch first, so
that selection must reorder. -/
def wBatches : List Batch := [wShip, wStock]

unseal List.merge List.mergeSort in
/-- Witness for C1: on `wBatches`, selection lands on the in-stock batch even
though the dated batch comes first. -/
theorem allocate_selects_preferred_witness :
    selectBatch wLine wBatches = some (1, wStock) ∧
    ((allocate wLine wBatches).1 = .ok wStock.reference ∧
    ((∃ B ∈ wBatches, B.eta = none ∧ B.can_allocate wLine = true) → wStock.eta = none) ∧
    (∀ d : Nat, wStock.eta = some d →
      ∀ D ∈ wBatches, D.can_allocate wLine = true →
        ∀ e : Nat, D.eta = some e → d ≤ e)) :=
  ⟨rfl, allocate_selects_preferred wLine wBatches 1 wStock rfl⟩

/-- C2: the kernel raises the out-of-stock condition — carrying the line's
SKU — if and only if no batch in the list can allocate the line, and in that
case the whole batch list (hence every batch's `allocations` set and
`available_quantity`) is returned unchanged. -/
theorem allocate_out_of_stock_iff (line : OrderLine) (batches : List Batch) :
    ((allocate line batches).1 = .error ("Out of stock for sku " ++ line.sku) ↔
      ∀ b ∈ batches, b.can_allocate line = false) ∧
    ((∀ b ∈ batches, b.can_allocate line = false) →
      allocate line batches = (.error ("Out of stock for sku " ++ line.sku), batches)) := by
  have hnone := selectBatch_eq_none line batches
  have hout : (∀ b ∈ batches, b.can_allocate line = false) →
      allocate line batches = (.error ("Out of stock for sku " ++ line.sku), batches) := by
    intro hall
    unfold allocate
    rw [hnone.mpr hall]
  refine ⟨⟨?_, fun hall => by rw [hout hall]⟩, hout⟩
  intro h
  cases hsel : selectBatch line batches with
  | none => exact hnone.mp hsel
  | some ib =>
    obtain ⟨i, b⟩ := ib
    unfold allocate at h
    rw [hsel] at h
    simp at h

/-- Witness for C2: a list where neither batch matches the SKU or has enough
quantity; the kernel reports out of stock and the list is unchanged. -/
theorem allocate_out_of_stock_iff_witness :
    (∀ b ∈ [mkBatch "b1" "CHAIR" 100 none, mkBatch "b2" "TABLE" 2 none],
      b.can_allocate (⟨"o2", "TABLE", 5⟩ : OrderLine) = false) ∧
    allocate ⟨"o2", "TABLE", 5⟩ [mkBatch "b1" "CHAIR" 100 none, mkBatch "b2" "TABLE" 2 none] =
      (.error ("Out of stock for sku " ++ (⟨"o2", "TABLE", 5⟩ : OrderLine).sku),
        [mkBatch "b1" "CHAIR" 100 none, mkBatch "b2" "TABLE" 2 none]) :=
  ⟨by decide,
   (allocate_out_of_stock_iff ⟨"o2", "TABLE", 5⟩
      [mkBatch "b1" "CHAIR" 100 none, mkBatch "b2" "TABLE" 2 none]).2 (by decide)⟩

/-- C5: a successful kernel call updates exactly one batch — the selected one,
at position `i` — by applying `Batch.allocate` to it, returns that batch's
reference, and leaves every other position of the list unchanged. -/
theorem allocate_mutates_exactly_one (line : OrderLine) (batches : List Batch)
    (r : String) (bs' : List Batch)
    (h : allocate line batches = (.ok r, bs')) :
    ∃ i b, batches[i]? = some b ∧ b.can_allocate line = true ∧
      r = b.reference ∧ bs' = batches.set i (b.allocate line) ∧
      bs'.length = batches.length ∧
      bs'[i]? = some (b.allocate line) ∧
      ∀ j, j ≠ i → bs'[j]? = batches[j]? := by
  cases hsel : selectBatch line batches with
  | none =>
    unfold allocate at h
    rw [hsel] at h
    simp at h
  | some ib =>
    obtain ⟨i, b⟩ := ib
    obtain ⟨hget, hcan, _⟩ := selectBatch_eq_some line batches i b hsel
    unfold allocate at h
    rw [hsel] at h
    have hr : r = b.reference := by
      have := congrArg Prod.fst h
      simpa using this.symm
    have hbs : bs' = batches.set i (b.allocate line) := by
      have := congrArg Prod.snd h
      simpa using this.symm
    have hlen : i < batches.length := by
      have := List.getElem?_eq_some_iff.mp hget
      exact this.1
    refine ⟨i, b, hget, hcan, hr, hbs, ?_, ?_, ?_⟩
    · rw [hbs]
      simp
    · rw [hbs]
      simp [List.getElem?_set_self, hlen]
    · intro j hj
      rw [hbs]
      exact List.getElem?_set_ne (fun he => hj he.symm)

unseal List.merge List.mergeSort in
/-- Witness for C5 on the concrete `wBatches`: only position 1 changes. -/
theorem allocate_mutates_exactly_one_witness :
    allocate wLine wBatches = (.ok wStock.reference, wBatches.set 1 (wStock.allocate wLine)) ∧
    (∃ i b, wBatches[i]? = some b ∧ b.can_allocate wLine = true ∧
      wStock.reference = b.reference ∧
      wBatches.set 1 (wStock.allocate wLine) = wBatches.set i (b.allocate wLine) ∧
      (wBatches.set 1 (wStock.allocate wLine)).length = wBatches.length ∧
      (wBatches.set 1 (wStock.allocate wLine))[i]? = some (b.allocate wLine) ∧
      ∀ j, j ≠ i → (wBatches.set 1 (wStock.allocate wLine))[j]? = wBatches[j]?) :=
  ⟨rfl, allocate_mutates_exactly_one wLine wBatches wStock.reference
    (wBatches.set 1 (wStock.allocate wLine)) rfl⟩

/-- One step of the lifecycle invariant: an operation whose line has positive
quantity preserves nonnegative availability together with positivity of every
allocated line's quantity. -/
theorem applyOp_preserves (b : Batch) (op : BatchOp)
    (hpos : 0 < op.line.qty)
    (havail : 0 ≤ b.available_quantity)
    (hall : ∀ l ∈ b.allocations, 0 < l.qty) :
    0 ≤ (applyOp b op).available_quantity ∧
      ∀ l ∈ (applyOp b op).allocations, 0 < l.qty := by
  cases op with
  | alloc line =>
    simp only [applyOp, BatchOp.line] at *
    unfold Batch.allocate
    by_cases hc : b.can_allocate line = true
    · simp only [hc, if_true]
      by_cases hmem : line ∈ b.allocations
      · have hins : insert line b.allocations = b.allocations :=
          Finset.insert_eq_self.mpr hmem
        constructor
        · simpa [Batch.available_quantity, Batch.allocated_quantity, hins] using havail
        · intro l hl
          rw [hins] at hl
          exact hall l hl
      · have hsum : (insert line b.allocations).sum (fun l => l.qty) =
            line.qty + b.allocations.sum (fun l => l.qty) :=
          Finset.sum_insert hmem
        constructor
        · have hcan := (can_allocate_eq b line).mp hc
          unfold Batch.available_quantity Batch.allocated_quantity at *
          simp only [hsum]
          linarith [hcan.2]
        · intro l hl
          rcases Finset.mem_insert.mp hl with rfl | hl'
          · exact hpos
          · exact hall l hl'
    · simp only [hc, if_false, Bool.false_eq_true]
      exact ⟨havail, hall⟩
  | dealloc line =>
    simp only [applyOp, BatchOp.line] at *
    unfold Batch.deallocate
    by_cases hmem : line ∈ b.allocations
    · simp only [hmem, if_true]
      have hsum : (b.allocations.erase line).sum (fun l => l.qty) + line.qty =
          b.allocations.sum (fun l => l.qty) :=
        Finset.sum_erase_add _ _ hmem
      have hq := hall line hmem
      constructor
      · unfold Batch.available_quantity Batch.allocated_quantity at *
        simp only []
        linarith
      · intro l hl
        exact hall l (Finset.mem_of_mem_erase hl)
    · simp only [hmem, if_false]
      exact ⟨havail, hall⟩

/-- The lifecycle invariant propagated along any operation sequence. -/
theorem applyOps_preserves (ops : List BatchOp) :
    ∀ (b : Batch), (∀ op ∈ ops, 0 < op.line.qty) →
      0 ≤ b.available_quantity → (∀ l ∈ b.allocations, 0 < l.qty) →
      0 ≤ (applyOps b ops).available_quantity ∧
        ∀ l ∈ (applyOps b ops).allocations, 0 < l.qty := by
  induction ops with
  | nil =>
    intro b _ h1 h2
    exact ⟨h1, h2⟩
  | cons op ops ih =>
    intro b hpos h1 h2
    have hstep := applyOp_preserves b op (hpos op (List.mem_cons_self op ops)) h1 h2
    have htail := ih (applyOp b op)
      (fun o ho => hpos o (List.mem_cons_of_mem _ ho)) hstep.1 hstep.2
    simpa [applyOps] using htail

/-- C4: starting from a batch constructed with a nonnegative purchased
quantity (and, per `__init__`, an empty allocations set), any sequence of
`allocate` / `deallocate` calls whose order lines all carry a positive
quantity keeps `available_quantity >= 0` — the guard in `allocate` only adds
a line when doing so keeps the quantity nonnegative.  Because the conclusion
holds for every operation list, it holds after every prefix, i.e. after every
call. -/
theorem available_quantity_nonneg_invariant (ref sku : String) (q : Int)
    (eta : Option Nat) (ops : List BatchOp)
    (hq : 0 ≤ q) (hops : ∀ op ∈ ops, 0 < op.line.qty) :
    0 ≤ (applyOps (mkBatch ref sku q eta) ops).available_quantity := by
  have h0 : 0 ≤ (mkBatch ref sku q eta).available_quantity := by
    simpa [mkBatch, Batch.available_quantity, Batch.allocated_quantity] using hq
  have hempty : ∀ l ∈ (mkBatch ref sku q eta).allocations, 0 < l.qty := by
    intro l hl
    simp [mkBatch] at hl
  exact (applyOps_preserves ops (mkBatch ref sku q eta) hops h0 hempty).1

/-- Witness for C4: allocate, fail an oversized allocate, allocate again,
then deallocate — availability stays nonnegative. -/
theorem available_quantity_nonneg_invariant_witness :
    (0 ≤ (20 : Int) ∧
      ∀ op ∈ [BatchOp.alloc ⟨"o1", "TABLE", 2⟩, BatchOp.alloc ⟨"o2", "TABLE", 30⟩,
        BatchOp.alloc ⟨"o3", "TABLE", 18⟩, BatchOp.dealloc ⟨"o1", "TABLE", 2⟩],
        0 < op.line.qty) ∧
    0 ≤ (applyOps (mkBatch "batch-001" "TABLE" 20 (some 0))
      [BatchOp.alloc ⟨"o1", "TABLE", 2⟩, BatchOp.alloc ⟨"o2", "TABLE", 30⟩,
        BatchOp.alloc ⟨"o3", "TABLE", 18⟩,
        BatchOp.dealloc ⟨"o1", "TABLE", 2⟩]).available_quantity :=
  ⟨⟨by decide, by decide⟩,
   available_quantity_nonneg_invariant "batch-001" "TABLE" 20 (some 0)
     [BatchOp.alloc ⟨"o1", "TABLE", 2⟩, BatchOp.alloc ⟨"o2", "TABLE", 30⟩,
       BatchOp.alloc ⟨"o3", "TABLE", 18⟩, BatchOp.dealloc ⟨"o1", "TABLE", 2⟩]
     (by decide) (by decide)⟩

/-- C8: the service layer validates the SKU before invoking the kernel: it
raises the invalid-SKU condition if and only if no batch known to the
repository carries the line's SKU, and in that case the batch list is
returned untouched (the kernel never ran). -/
theorem services_allocate_invalid_sku (line : OrderLine) (repoBatches : List Batch) :
    ((∃ m, (services_allocate line repoBatches).1 = .error (.invalidSku m)) ↔
      ∀ b ∈ repoBatches, b.sku ≠ line.sku) ∧
    ((∀ b ∈ repoBatches, b.sku ≠ line.sku) →
      services_allocate line repoBatches =
        (.error (.invalidSku ("Invalid sku " ++ line.sku)), repoBatches)) := by
  have hval : is_valid_sku line.sku repoBatches = true ↔
      ∃ b ∈ repoBatches, b.sku = line.sku := by
    simp [is_valid_sku]
  by_cases h : is_valid_sku line.sku repoBatches = true
  · obtain ⟨b0, hb0, hsku⟩ := hval.mp h
    constructor
    · constructor
      · rintro ⟨m, hm⟩
        exfalso
        unfold services_allocate at hm
        rw [if_pos h] at hm
        rcases hall : allocate line repoBatches with ⟨fst, snd⟩
        rw [hall] at hm
        cases fst <;> simp at hm
      · intro hforall
        exact absurd hsku (hforall b0 hb0)
    · intro hforall
      exact absurd hsku (hforall b0 hb0)
  · have hnotval : ∀ b ∈ repoBatches, b.sku ≠ line.sku := by
      intro b hb heq
      exact h (hval.mpr ⟨b, hb, heq⟩)
    have hres : services_allocate line repoBatches =
        (.error (.invalidSku ("Invalid sku " ++ line.sku)), repoBatches) := by
      unfold services_allocate
      rw [if_neg h]
    exact ⟨⟨fun _ => hnotval, fun _ => ⟨_, by rw [hres]⟩⟩, fun _ => hres⟩

/-- Witness for C8: a repository holding only a CHAIR batch rejects a TOASTER
line with the invalid-SKU condition and leaves the repository unchanged. -/
theorem services_allocate_invalid_sku_witness :
    (∀ b ∈ [mkBatch "b1" "CHAIR" 5 none], b.sku ≠ (⟨"o1", "TOASTER", 1⟩ : OrderLine).sku) ∧
    services_allocate ⟨"o1", "TOASTER", 1⟩ [mkBatch "b1" "CHAIR" 5 none] =
      (.error (.invalidSku ("Invalid sku " ++ (⟨"o1", "TOASTER", 1⟩ : OrderLine).sku)),
        [mkBatch "b1" "CHAIR" 5 none]) :=
  ⟨by decide,
   (services_allocate_invalid_sku ⟨"o1", "TOASTER", 1⟩ [mkBatch "b1" "CHAIR" 5 none]).2
     (by decide)⟩

/-- C9: every successful allocation through the `Product` aggregate bumps
`version_number` by exactly one, so the counter strictly increases across
successful allocations against the same product. -/
theorem product_allocate_bumps_version (p : Product) (line : OrderLine)
    (r : String) (h : (p.allocate line).1 = .ok r) :
    (p.allocate line).2.version_number = p.version_number + 1 ∧
      p.version_number < (p.allocate line).2.version_number := by
  rcases hall : PythonBooks.allocate line p.batches with ⟨fst, snd⟩
  cases fst with
  | ok r' =>
    have hres : p.allocate line =
        (.ok r', { p with batches := snd, version_number := p.version_number + 1 }) := by
      unfold Product.allocate
      rw [hall]
    rw [hres]
    refine ⟨rfl, ?_⟩
    simp
  | error m =>
    have hres : p.allocate line = (.error m, p) := by
      unfold Product.allocate
      rw [hall]
    rw [hres] at h
    simp at h

unseal List.merge List.mergeSort in
/-- Witness for C9: a product over `wBatches` at version 3 moves to version 4
on a successful allocation. -/
theorem product_allocate_bumps_version_witness :
    ((Product.mk "CLOCK" wBatches 3).allocate wLine).1 = .ok wStock.reference ∧
    (((Product.mk "CLOCK" wBatches 3).allocate wLine).2.version_number = 3 + 1 ∧
      (3 : Int) < ((Product.mk "CLOCK" wBatches 3).allocate wLine).2.version_number) :=
  ⟨rfl, product_allocate_bumps_version (Product.mk "CLOCK" wBatches 3) wLine
    wStock.reference rfl⟩

end PythonBooks
